import Mathlib

/-!
# AegisFS: a shallow embedding of the filesystem gateway

This file models the AegisFS repository in Lean 4: the cryptographic
envelope (`src/crypto.rs`, `Encryptor::encrypt` / `Encryptor::decrypt`),
the object-store adapter (`src/s3_client.rs`, `S3Storage`) and the
filesystem gateway (`src/filesystem.rs`, `impl Filesystem for AegisFS`),
together with theorems checking the specification's claims against it.

Modelling conventions:
* Byte buffers (`Vec<u8>`, `Bytes`) are `List Nat`; no byte arithmetic occurs
  in the modelled code, so the 0..255 range is not enforced.
* Rust strings (paths, object keys) are modelled as their character lists
  (`FsPath := List Char`); the string operations used by the source
  (`matches('/').count`, `strip_prefix`, `starts_with`, concatenation)
  are character-level and translate one-to-one.
* The AES-256-GCM cipher of the external `aes_gcm` crate is an abstract
  parameter `Aead` (it is a third-party crate, not code of this repository);
  the AEAD round-trip contract documented by that crate is the hypothesis
  `AeadCorrect`.
* The random 12-byte nonce drawn inside `Encryptor::encrypt` is an explicit
  argument of the model.
* The S3 backend is a functioning in-memory store (an association list of
  key / ciphertext-body pairs); transport failures are not modelled, and the
  configured key prefix is empty (no claim involves it).
* Kernel names (`&OsStr`) are modelled by the result of `OsStr::to_str`:
  `some s` for a valid-UTF-8 name, `none` for an invalid one — the gateway
  only ever applies `to_str` to a name.
* FUSE reply buffers are unbounded: `reply.add` never reports a full buffer,
  so a `readdir` reply is the full list of entries the loop adds.
-/

/-- Object bodies and plaintexts: Rust `Vec<u8>` / `Bytes`. -/
abbrev Bytes := List Nat

/-- Paths and object keys: Rust `String` / `&str` as a character list. -/
abbrev FsPath := List Char

/-- The abstract AEAD cipher interface consumed by `Encryptor`
(`aes_gcm::AesGcm<Aes256>`, an external crate): `enc nonce plaintext`
is the tag-appended ciphertext, `dec nonce body` authenticates and
decrypts, returning `none` on an authentication failure. -/
structure Aead where
  enc : Bytes → Bytes → Bytes
  dec : Bytes → Bytes → Option Bytes

/-- The AEAD contract of the external cipher: decrypting an honestly
produced ciphertext under the same nonce returns the plaintext. -/
def AeadCorrect (a : Aead) : Prop :=
  ∀ nonce p, a.dec nonce (a.enc nonce p) = some p

namespace Encryptor

/-- `Encryptor::encrypt` (src/crypto.rs:56-72): encrypt the plaintext with
a fresh 12-byte random nonce (here an explicit argument) and prepend the
nonce to the ciphertext. -/
def encrypt (a : Aead) (nonce : Bytes) (plaintext : Bytes) : Bytes :=
  nonce ++ a.enc nonce plaintext

/-- `Encryptor::decrypt` (src/crypto.rs:74-87): fail if shorter than the
12-byte nonce, otherwise split off the nonce and AEAD-decrypt the rest.
`none` covers both the "ciphertext too short" bail-out and an
authentication failure inside the cipher. -/
def decrypt (a : Aead) (ciphertext : Bytes) : Option Bytes :=
  if ciphertext.length < 12 then none
  else a.dec (ciphertext.take 12) (ciphertext.drop 12)

end Encryptor

/-- The backend bucket: an association list of object key / ciphertext-body
pairs (the in-memory stand-in for the remote S3 bucket). -/
abbrev Store := List (FsPath × Bytes)

namespace S3Storage

/-- `S3Storage::get` (src/s3_client.rs:63-96) with empty configured prefix:
fetch the object body at a key, `none` when the key is absent. -/
def get (st : Store) (k : FsPath) : Option Bytes :=
  (st.find? (fun e => e.1 == k)).map Prod.snd

/-- `S3Storage::put` (src/s3_client.rs:98-112): unconditionally overwrite
the object at a key. -/
def put (st : Store) (k : FsPath) (v : Bytes) : Store :=
  (k, v) :: st.filter (fun e => !(e.1 == k))

/-- `S3Storage::delete` (src/s3_client.rs:114-127): remove the object at a
key; a missing key is not an error. -/
def delete (st : Store) (k : FsPath) : Store :=
  st.filter (fun e => !(e.1 == k))

/-- `S3Storage::list` (src/s3_client.rs:129-172) with empty configured
prefix: all object keys having the argument as a prefix. -/
def list (st : Store) (pre : FsPath) : List FsPath :=
  (st.map Prod.fst).filter (fun k => pre.isPrefixOf k)

/-- `S3Storage::exists` (src/s3_client.rs:174-194): metadata-only existence
probe for a key. -/
def existsKey (st : Store) (k : FsPath) : Bool :=
  (get st k).isSome

end S3Storage

namespace AegisFS

/-- src/filesystem.rs:17. -/
def ROOT_INO : Nat := 1

/-- The in-memory gateway state: the backend store plus the inode service
maps and counter of `struct AegisFS` (src/filesystem.rs:19-25). -/
structure FSState where
  store : Store
  pathMap : FsPath → Option Nat
  inoMap : Nat → Option FsPath
  nextIno : Nat

/-- `AegisFS::new` (src/filesystem.rs:28-48): mount-time state with the
root mapping `"" ↔ 1` installed and the counter at 2; the store is
whatever the bucket already holds. -/
def initState (st : Store) : FSState where
  store := st
  pathMap := fun p => if p = [] then some ROOT_INO else none
  inoMap := fun i => if i = ROOT_INO then some [] else none
  nextIno := 2

/-- `AegisFS::get_or_create_ino` (src/filesystem.rs:50-64): return the
existing inode for a path, or assign the next counter value and install
both map directions. -/
def getOrCreateIno (fs : FSState) (path : FsPath) : Nat × FSState :=
  match fs.pathMap path with
  | some ino => (ino, fs)
  | none =>
    let ino := fs.nextIno
    (ino, { fs with
      pathMap := fun p => if p = path then some ino else fs.pathMap p
      inoMap := fun i => if i = ino then some path else fs.inoMap i
      nextIno := ino + 1 })

/-- `AegisFS::get_path` (src/filesystem.rs:66-72): the root inode resolves
to the empty path, any other inode through the inode map. -/
def getPath (fs : FSState) (ino : Nat) : Option FsPath :=
  if ino = ROOT_INO then some [] else fs.inoMap ino

/-- The map removals performed by `unlink` (src/filesystem.rs:556-558) and
`rmdir` (src/filesystem.rs:675-677): drop the path from the path map and,
when it was present, its inode from the inode map. -/
def forget (fs : FSState) (path : FsPath) : FSState :=
  match fs.pathMap path with
  | none => fs
  | some ino =>
    { fs with
      pathMap := fun p => if p = path then none else fs.pathMap p
      inoMap := fun i => if i = ino then none else fs.inoMap i }

/-- Result of `AegisFS::read_file` (src/filesystem.rs:78-88): `err` for a
decryption failure, `missing` when the object is absent, `ok` with the
plaintext otherwise. -/
inductive FileReadResult where
  | err
  | missing
  | ok (data : Bytes)
deriving DecidableEq

/-- `AegisFS::read_file` (src/filesystem.rs:78-88): fetch the object and
decrypt it. -/
def readFile (a : Aead) (st : Store) (path : FsPath) : FileReadResult :=
  match S3Storage.get st path with
  | none => .missing
  | some encrypted =>
    match Encryptor.decrypt a encrypted with
    | none => .err
    | some decrypted => .ok decrypted

/-- `AegisFS::write_file` (src/filesystem.rs:90-96): encrypt the data (the
fresh random nonce is an explicit argument) and put it at the path. -/
def writeFile (a : Aead) (nonce : Bytes) (st : Store) (path : FsPath) (data : Bytes) : Store :=
  S3Storage.put st path (Encryptor.encrypt a nonce data)

/-- Path join as written inline throughout the gateway
(e.g. src/filesystem.rs:162-166): `name` under the root, otherwise
`parent/name`. -/
def joinPath (parent : FsPath) (name : FsPath) : FsPath :=
  if parent = [] then name else parent ++ '/' :: name

/-- `AegisFS::list_directory` (src/filesystem.rs:103-127): list the store
under `path + "/"` (or everything at the root) and keep only the immediate
children (entry slash-depth = parent depth + 1), stripped of the listing
prefix. -/
def listDirectory (st : Store) (path : FsPath) : List FsPath :=
  let pre := if path = [] then [] else path ++ ['/']
  let entries := S3Storage.list st pre
  let pathDepth := if path = [] then 0 else path.count '/' + 1
  entries.filterMap (fun e =>
    if e.count '/' + 1 = pathDepth + 1 then
      if pre.isPrefixOf e then some (e.drop pre.length) else none
    else none)

/-- `fuser::FileType` restricted to the kinds the gateway emits. -/
inductive FileType where
  | RegularFile
  | Directory
deriving DecidableEq

/-- The environment-independent fields of `fuser::FileAttr` that the
gateway computes (timestamps are wall-clock now and uid/gid are the
mounting user's on every call; they are omitted). -/
structure FileAttr where
  ino : Nat
  size : Nat
  blocks : Nat
  kind : FileType
  perm : Nat
  nlink : Nat
deriving DecidableEq

/-- src/filesystem.rs:16. -/
def BLOCK_SIZE : Nat := 4096

/-- `AegisFS::get_root_attr` (src/filesystem.rs:690-712). -/
def getRootAttr : FileAttr where
  ino := 1
  size := 4096
  blocks := 1
  kind := .Directory
  perm := 493
  nlink := 2

/-- `AegisFS::get_file_attr_for_path` (src/filesystem.rs:738-765): the size
is the decrypted length of the object at the path, 0 when it is missing or
fails to decrypt; blocks = ceil(size / 4096). 0o644 = 420. -/
def getFileAttrForPath (a : Aead) (st : Store) (path : FsPath) (ino : Nat) : FileAttr :=
  let size := match readFile a st path with
    | .ok data => data.length
    | _ => 0
  { ino := ino
    size := size
    blocks := (size + BLOCK_SIZE - 1) / BLOCK_SIZE
    kind := .RegularFile
    perm := 420
    nlink := 1 }

/-- `AegisFS::get_dir_attr_for_path` (src/filesystem.rs:767-789). 0o755 = 493. -/
def getDirAttrForPath (ino : Nat) : FileAttr where
  ino := ino
  size := 4096
  blocks := 1
  kind := .Directory
  perm := 493
  nlink := 2

/-- Kernel error codes the gateway replies with. -/
inductive Errno where
  | ENOENT
  | EIO
  | EISDIR
  | EINVAL
deriving DecidableEq

/-- Reply of the `lookup` / `create` / `mkdir` callbacks. -/
inductive EntryReply where
  | entry (attr : FileAttr)
  | error (e : Errno)
deriving DecidableEq

/-- Reply of the `getattr` callback. -/
inductive AttrReply where
  | attr (a : FileAttr)
  | error (e : Errno)
deriving DecidableEq

/-- Reply of the `read` callback. -/
inductive ReadReply where
  | data (d : Bytes)
  | error (e : Errno)
deriving DecidableEq

/-- Reply of the `write` callback. -/
inductive WriteReply where
  | written (n : Nat)
  | error (e : Errno)
deriving DecidableEq

/-- Reply of the `unlink` / `rmdir` callbacks. -/
inductive EmptyReply where
  | ok
  | error (e : Errno)
deriving DecidableEq

/-- A directory entry pushed by `reply.add` in `readdir`. -/
structure DirEntry where
  ino : Nat
  off : Nat
  kind : FileType
  name : FsPath
deriving DecidableEq

/-- Reply of the `readdir` callback: the entries added before `reply.ok()`
(the kernel buffer is modelled as unbounded). -/
inductive ReaddirReply where
  | ok (entries : List DirEntry)
  | error (e : Errno)
deriving DecidableEq

/-- `Filesystem::lookup` for `AegisFS` (src/filesystem.rs:131-196).
A name that is not valid UTF-8 is `none` and replies `ENOENT`
(src/filesystem.rs:132-138). `.` and `..` under the root short-circuit to
the root attributes. Otherwise the child path is probed as an object
(file attributes) and then as a listing prefix (directory attributes). -/
def lookup (a : Aead) (fs : FSState) (parent : Nat) (name : Option FsPath) :
    EntryReply × FSState :=
  match name with
  | none => (.error .ENOENT, fs)
  | some n =>
    if parent = 1 ∧ (n = ['.'] ∨ n = ['.', '.']) then
      (.entry getRootAttr, fs)
    else
      match getPath fs parent with
      | none => (.error .ENOENT, fs)
      | some parentPath =>
        let path := joinPath parentPath n
        if S3Storage.existsKey fs.store path then
          let pr := getOrCreateIno fs path
          (.entry (getFileAttrForPath a pr.2.store path pr.1), pr.2)
        else
          if (S3Storage.list fs.store (path ++ ['/'])).isEmpty then
            (.error .ENOENT, fs)
          else
            let pr := getOrCreateIno fs path
            (.entry (getDirAttrForPath pr.1), pr.2)

/-- `Filesystem::getattr` for `AegisFS` (src/filesystem.rs:198-237).
Root replies the root attributes; otherwise, when the listing under
`path + "/"` is non-empty the inode is reported as a directory, and
otherwise as a file whose size is the decrypted length (any read or
decryption failure falls into the catch-all `_` arm, which still builds
file attributes — of size 0 — and replies success). -/
def getattr (a : Aead) (fs : FSState) (ino : Nat) : AttrReply :=
  if ino = ROOT_INO then .attr getRootAttr
  else
    match getPath fs ino with
    | none => .error .ENOENT
    | some path =>
      if (S3Storage.list fs.store (path ++ ['/'])).isEmpty then
        match readFile a fs.store path with
        | .ok data => .attr { getFileAttrForPath a fs.store path ino with size := data.length }
        | _ => .attr (getFileAttrForPath a fs.store path ino)
      else .attr (getDirAttrForPath ino)

/-- `Filesystem::read` for `AegisFS` (src/filesystem.rs:343-389). -/
def read (a : Aead) (fs : FSState) (ino : Nat) (offset : Nat) (size : Nat) : ReadReply :=
  if ino = ROOT_INO then .error .EISDIR
  else
    match getPath fs ino with
    | none => .error .ENOENT
    | some path =>
      match readFile a fs.store path with
      | .ok data =>
        if data.length ≤ offset then .data []
        else .data ((data.take (min (offset + size) data.length)).drop offset)
      | .missing => .error .ENOENT
      | .err => .error Errno.EIO

/-- The read-modify-write patch of `write` (src/filesystem.rs:431-435):
zero-extend to `offset + data.length` when that exceeds the current
length, then overwrite the byte range `[offset, offset + data.length)`. -/
def patchBytes (old : Bytes) (offset : Nat) (data : Bytes) : Bytes :=
  let base := if offset + data.length > old.length
              then old ++ List.replicate (offset + data.length - old.length) 0
              else old
  base.take offset ++ data ++ base.drop (offset + data.length)

/-- `Filesystem::write` for `AegisFS` (src/filesystem.rs:391-446): reject
the root with `EISDIR`; fetch-and-decrypt the current object (missing is
treated as empty, a failure replies `EIO`), patch, encrypt under the fresh
nonce, put, and acknowledge `data.length` bytes. -/
def write (a : Aead) (nonce : Bytes) (fs : FSState) (ino : Nat) (offset : Nat) (data : Bytes) :
    WriteReply × FSState :=
  if ino = ROOT_INO then (.error .EISDIR, fs)
  else
    match getPath fs ino with
    | none => (.error .ENOENT, fs)
    | some path =>
      match readFile a fs.store path with
      | .err => (.error Errno.EIO, fs)
      | .missing =>
        (.written data.length,
          { fs with store := writeFile a nonce fs.store path (patchBytes [] offset data) })
      | .ok fileData =>
        (.written data.length,
          { fs with store := writeFile a nonce fs.store path (patchBytes fileData offset data) })

/-- `Filesystem::create` for `AegisFS` (src/filesystem.rs:448-522): resolve
the parent path (for a non-root parent, before looking at the name), reject
a non-UTF-8 name with `EINVAL`, put an encrypted empty object at the child
path, assign an inode and reply with file attributes. -/
def create (a : Aead) (nonce : Bytes) (fs : FSState) (parent : Nat) (name : Option FsPath) :
    EntryReply × FSState :=
  if parent ≠ ROOT_INO then
    match getPath fs parent with
    | none => (.error .ENOENT, fs)
    | some parentPath =>
      match name with
      | none => (.error .EINVAL, fs)
      | some n =>
        let path := joinPath parentPath n
        let fs1 : FSState := { fs with store := writeFile a nonce fs.store path [] }
        let pr := getOrCreateIno fs1 path
        (.entry (getFileAttrForPath a pr.2.store path pr.1), pr.2)
  else
    match name with
    | none => (.error .EINVAL, fs)
    | some n =>
      let path := n
      let fs1 : FSState := { fs with store := writeFile a nonce fs.store path [] }
      let pr := getOrCreateIno fs1 path
      (.entry (getFileAttrForPath a pr.2.store path pr.1), pr.2)

/-- `Filesystem::unlink` for `AegisFS` (src/filesystem.rs:524-569): resolve
the parent path, reject a non-UTF-8 name with `EINVAL`, remove the child
path from both inode maps, delete the object. -/
def unlink (fs : FSState) (parent : Nat) (name : Option FsPath) :
    EmptyReply × FSState :=
  match getPath fs parent with
  | none => (.error .ENOENT, fs)
  | some parentPath =>
    match name with
    | none => (.error .EINVAL, fs)
    | some n =>
      let path := joinPath parentPath n
      let fs1 := forget fs path
      (.ok, { fs1 with store := S3Storage.delete fs1.store path })

/-- `Filesystem::mkdir` for `AegisFS` (src/filesystem.rs:571-622): resolve
the parent path, reject a non-UTF-8 name with `EINVAL`, put an encrypted
empty marker object at `path + "/.dir"`, assign an inode and reply with
directory attributes. -/
def mkdir (a : Aead) (nonce : Bytes) (fs : FSState) (parent : Nat) (name : Option FsPath) :
    EntryReply × FSState :=
  match getPath fs parent with
  | none => (.error .ENOENT, fs)
  | some parentPath =>
    match name with
    | none => (.error .EINVAL, fs)
    | some n =>
      let path := joinPath parentPath n
      let marker := path ++ '/' :: ['.', 'd', 'i', 'r']
      let fs1 : FSState := { fs with store := writeFile a nonce fs.store marker [] }
      let pr := getOrCreateIno fs1 path
      (.entry (getDirAttrForPath pr.1), pr.2)

/-- `Filesystem::rmdir` for `AegisFS` (src/filesystem.rs:624-686): resolve
the parent path, reject a non-UTF-8 name with `EINVAL`, delete every object
under `path + "/"`, delete the `path + "/.dir"` marker, and remove the path
from both inode maps. -/
def rmdir (fs : FSState) (parent : Nat) (name : Option FsPath) :
    EmptyReply × FSState :=
  match getPath fs parent with
  | none => (.error .ENOENT, fs)
  | some parentPath =>
    match name with
    | none => (.error .EINVAL, fs)
    | some n =>
      let path := joinPath parentPath n
      let entries := S3Storage.list fs.store (path ++ ['/'])
      let st1 := entries.foldl S3Storage.delete fs.store
      let st2 := S3Storage.delete st1 (path ++ '/' :: ['.', 'd', 'i', 'r'])
      let fs1 := forget { fs with store := st2 } path
      (.ok, fs1)

/-- The parent path computed for the `..` entry of a non-root `readdir`
(src/filesystem.rs:266-275): everything before the last slash
(`path.rsplitn(2, '/').nth(1)`). -/
def parentDir (p : FsPath) : FsPath :=
  ((p.reverse.dropWhile (fun c => !(c == '/'))).drop 1).reverse

/-- The inode emitted for `..` in a non-root `readdir`
(src/filesystem.rs:266-275): the path map's entry for the parent path when
the path contains a slash, the root inode otherwise (also the fallback when
the parent path is unmapped). -/
def parentIno (fs : FSState) (path : FsPath) : Nat :=
  if path.contains '/' then
    match fs.pathMap (parentDir path) with
    | some i => i
    | none => ROOT_INO
  else ROOT_INO

/-- The child-entry loop of a non-root `readdir`
(src/filesystem.rs:284-298): walk the listed children with a running
offset starting at 2, and for every position strictly beyond the request
offset assign an inode to the child's full path and add a `RegularFile`
entry. -/
def readdirChildren (fs : FSState) (path : FsPath) :
    List FsPath → Nat → Nat → List DirEntry × FSState
  | [], _, _ => ([], fs)
  | e :: rest, cur, offset =>
    if cur > offset then
      let entryPath := if path = [] then e else path ++ '/' :: e
      let pr := getOrCreateIno fs entryPath
      let tail := readdirChildren pr.2 path rest (cur + 1) offset
      ({ ino := pr.1, off := cur, kind := .RegularFile, name := e } :: tail.1, tail.2)
    else
      readdirChildren fs path rest (cur + 1) offset

/-- The child-entry loop of the root `readdir` (src/filesystem.rs:324-333):
as `readdirChildren`, except the emitted inode is the running offset value
itself (`let ino = current_offset as u64`) and the inode table is neither
consulted nor updated. -/
def readdirRootChildren : List FsPath → Nat → Nat → List DirEntry
  | [], _, _ => []
  | e :: rest, cur, offset =>
    if cur > offset then
      { ino := cur, off := cur, kind := .RegularFile, name := e }
        :: readdirRootChildren rest (cur + 1) offset
    else
      readdirRootChildren rest (cur + 1) offset

/-- `Filesystem::readdir` for `AegisFS` (src/filesystem.rs:239-341): emit
`.` at offset 0 and `..` at offset 1, then the listed children. -/
def readdir (fs : FSState) (ino : Nat) (offset : Nat) :
    ReaddirReply × FSState :=
  if ino ≠ ROOT_INO then
    match getPath fs ino with
    | none => (.error .ENOENT, fs)
    | some path =>
      let dots :=
        (if offset = 0 then [{ ino := ino, off := 0, kind := FileType.Directory, name := ['.'] }] else [])
        ++ (if offset ≤ 1 then [{ ino := parentIno fs path, off := 1, kind := FileType.Directory, name := ['.', '.'] }] else [])
      let pr := readdirChildren fs path (listDirectory fs.store path) 2 offset
      (.ok (dots ++ pr.1), pr.2)
  else
    let dots :=
      (if offset = 0 then [{ ino := 1, off := 0, kind := FileType.Directory, name := ['.'] }] else [])
      ++ (if offset ≤ 1 then [{ ino := 1, off := 1, kind := FileType.Directory, name := ['.', '.'] }] else [])
    (.ok (dots ++ readdirRootChildren (listDirectory fs.store []) 2 offset), fs)

/-- An inode-service operation, for claims about sequences of
`get_or_create_ino` and the map removals of `unlink` / `rmdir`. -/
inductive InoOp where
  | resolve (p : FsPath)
  | forget (p : FsPath)

/-- Apply one inode-service operation to the state. -/
def applyOp (fs : FSState) : InoOp → FSState
  | .resolve p => (getOrCreateIno fs p).2
  | .forget p => forget fs p

/-- Apply a sequence of inode-service operations. -/
def applyOps (fs : FSState) (ops : List InoOp) : FSState :=
  ops.foldl applyOp fs

/-- The inode-table invariant of the spec (§3): the two maps are mutual
inverses, the root mapping is present, every assigned inode is strictly
below the counter, and the counter is at least 2. -/
structure FsInv (fs : FSState) : Prop where
  inv₁ : ∀ p i, fs.pathMap p = some i → fs.inoMap i = some p
  inv₂ : ∀ p i, fs.inoMap i = some p → fs.pathMap p = some i
  root : fs.pathMap [] = some 1
  bound : ∀ p i, fs.pathMap p = some i → i < fs.nextIno
  two_le : 2 ≤ fs.nextIno

end AegisFS

/-! ## Concrete instances used to evaluate the theorems -/

/-- A concrete correct AEAD instance used to evaluate theorems at concrete
inputs (the real cipher is the external AES-256-GCM crate). -/
def demoAead : Aead where
  enc := fun _ p => 0 :: p
  dec := fun _ b => match b with
    | 0 :: p => some p
    | _ => none

/-- A concrete 12-byte nonce. -/
def nonce12 : Bytes := List.replicate 12 0

/-- A state holding one encrypted file `f` with plaintext `[5, 6]`,
its path mapped to inode 2. -/
def wfs : AegisFS.FSState where
  store := [(['f'], Encryptor.encrypt demoAead nonce12 [5, 6])]
  pathMap := fun p => if p = [] then some 1 else if p = ['f'] then some 2 else none
  inoMap := fun i => if i = 1 then some [] else if i = 2 then some ['f'] else none
  nextIno := 3

/-- A ciphertext whose AEAD body `[1, 5]` does not authenticate under
`demoAead` (tampered object). -/
def c6ct : Bytes := List.replicate 12 0 ++ [1, 5]

/-- A state holding one tampered object `f` mapped to inode 2. -/
def c6fs : AegisFS.FSState where
  store := [(['f'], c6ct)]
  pathMap := fun p => if p = [] then some 1 else if p = ['f'] then some 2 else none
  inoMap := fun i => if i = 1 then some [] else if i = 2 then some ['f'] else none
  nextIno := 3

/-- The ambiguous state of claim C7: an object at exactly key `a` and an
object `a/b` below it, with `a` mapped to inode 2. -/
def c7fs : AegisFS.FSState where
  store := [(['a'], [0]), (['a', '/', 'b'], [0])]
  pathMap := fun p => if p = [] then some 1 else if p = ['a'] then some 2 else none
  inoMap := fun i => if i = 1 then some [] else if i = 2 then some ['a'] else none
  nextIno := 3

/-- A state with one object `a` whose path is already mapped to inode 3
(e.g. after earlier lookups) while the counter stands at 4. -/
def c8fs : AegisFS.FSState where
  store := [(['a'], [0])]
  pathMap := fun p => if p = [] then some 1 else if p = ['a'] then some 3 else none
  inoMap := fun i => if i = 1 then some [] else if i = 3 then some ['a'] else none
  nextIno := 4

/-- A concrete inode-service call sequence: resolve `a`, forget `a`,
resolve `b`. -/
def c5ops : List AegisFS.InoOp :=
  [AegisFS.InoOp.resolve ['a'], AegisFS.InoOp.forget ['a'], AegisFS.InoOp.resolve ['b']]

/-! ## Theorems -/

/-- The external cipher instance satisfies the AEAD contract. -/
theorem demoAead_correct : AeadCorrect demoAead := fun _ _ => rfl

/-- Helper: decrypting an honestly encrypted blob under the same cipher
recovers the plaintext, for any 12-byte nonce. -/
theorem decrypt_encrypt (a : Aead) (ha : AeadCorrect a) (nonce p : Bytes)
    (hn : nonce.length = 12) :
    Encryptor.decrypt a (Encryptor.encrypt a nonce p) = some p := by
  unfold Encryptor.decrypt Encryptor.encrypt
  rw [if_neg]
  · rw [show (12 : Nat) = nonce.length from hn.symm, List.take_left, List.drop_left]
    exact ha nonce p
  · rw [List.length_append, hn]
    omega

/-- C1: For every byte sequence `p` of length 0 to 1 MiB, decrypting the
result of encrypting `p` under the same key returns exactly `p`
(`Encryptor::decrypt` composed with `Encryptor::encrypt` is the identity
on plaintexts). -/
theorem c1_decrypt_encrypt_roundtrip (a : Aead) (ha : AeadCorrect a)
    (nonce p : Bytes) (hn : nonce.length = 12) (hp : p.length ≤ 1048576) :
    Encryptor.decrypt a (Encryptor.encrypt a nonce p) = some p :=
  decrypt_encrypt a ha nonce p hn

/-- Witness for C1 at the concrete cipher, nonce and plaintext `[1, 2, 3]`. -/
theorem c1_decrypt_encrypt_roundtrip_witness :
    AeadCorrect demoAead ∧ nonce12.length = 12 ∧ ([1, 2, 3] : Bytes).length ≤ 1048576 ∧
    Encryptor.decrypt demoAead (Encryptor.encrypt demoAead nonce12 [1, 2, 3]) = some [1, 2, 3] :=
  ⟨demoAead_correct, by decide, by decide,
    c1_decrypt_encrypt_roundtrip demoAead demoAead_correct nonce12 [1, 2, 3] (by decide) (by decide)⟩

namespace AegisFS

/-- Helper: after `get_or_create_ino`, the path is mapped to the returned
inode. -/
theorem getOrCreateIno_pathMap_self (fs : FSState) (p : FsPath) :
    (getOrCreateIno fs p).2.pathMap p = some (getOrCreateIno fs p).1 := by
  cases h : fs.pathMap p with
  | some i => simp [getOrCreateIno, h]
  | none => simp [getOrCreateIno, h]

/-- Helper: `get_or_create_ino` never changes an existing path mapping. -/
theorem getOrCreateIno_pathMap_mono (fs : FSState) (p q : FsPath) (j : Nat)
    (h : fs.pathMap q = some j) :
    (getOrCreateIno fs p).2.pathMap q = some j := by
  cases hp : fs.pathMap p with
  | some i => simpa [getOrCreateIno, hp] using h
  | none =>
    simp only [getOrCreateIno, hp]
    by_cases hq : q = p
    · subst hq
      rw [h] at hp
      cases hp
    · simpa [hq] using h

/-- Helper: `get_or_create_ino` does not touch the store. -/
theorem getOrCreateIno_store (fs : FSState) (p : FsPath) :
    (getOrCreateIno fs p).2.store = fs.store := by
  cases h : fs.pathMap p <;> simp [getOrCreateIno, h]

/-- Helper: `get_or_create_ino` does not touch the inode map entries other
than the fresh one; in particular the whole call on a mapped path is the
identity. -/
theorem getOrCreateIno_found (fs : FSState) (p : FsPath) (i : Nat)
    (h : fs.pathMap p = some i) :
    getOrCreateIno fs p = (i, fs) := by
  simp [getOrCreateIno, h]

/-- Helper: a fresh assignment hands out exactly the counter value. -/
theorem getOrCreateIno_fresh (fs : FSState) (p : FsPath)
    (h : fs.pathMap p = none) :
    (getOrCreateIno fs p).1 = fs.nextIno := by
  simp [getOrCreateIno, h]

/-- Helper: calling `get_or_create_ino` again on the same path finds the
just-installed mapping and changes nothing. -/
theorem getOrCreateIno_idem (fs : FSState) (p : FsPath) :
    getOrCreateIno (getOrCreateIno fs p).2 p =
      ((getOrCreateIno fs p).1, (getOrCreateIno fs p).2) :=
  getOrCreateIno_found _ _ _ (getOrCreateIno_pathMap_self fs p)

/-- Helper: `get_or_create_ino` preserves the inode-table invariant. -/
theorem fsInv_getOrCreateIno (fs : FSState) (p : FsPath) (h : FsInv fs) :
    FsInv (getOrCreateIno fs p).2 := by
  cases hp : fs.pathMap p with
  | some i =>
    rw [getOrCreateIno_found fs p i hp]
    exact h
  | none =>
    simp only [getOrCreateIno, hp]
    refine ⟨?_, ?_, ?_, ?_, ?_⟩
    · intro q j hq
      dsimp at hq ⊢
      by_cases hqp : q = p
      · subst hqp
        simp only [if_pos rfl] at hq
        cases hq
        simp
      · rw [if_neg hqp] at hq
        have hj : j ≠ fs.nextIno := Nat.ne_of_lt (h.bound q j hq)
        rw [if_neg hj]
        exact h.inv₁ q j hq
    · intro q j hq
      dsimp at hq ⊢
      by_cases hj : j = fs.nextIno
      · subst hj
        simp only [if_pos rfl] at hq
        cases hq
        simp
      · rw [if_neg hj] at hq
        have hq' := h.inv₂ q j hq
        by_cases hqp : q = p
        · subst hqp
          rw [hq'] at hp
          cases hp
        · rw [if_neg hqp]
          exact hq'
    · dsimp
      have hne : ¬(([] : FsPath) = p) := by
        intro he
        rw [← he] at hp
        rw [h.root] at hp
        cases hp
      rw [if_neg hne]
      exact h.root
    · intro q j hq
      dsimp at hq ⊢
      by_cases hqp : q = p
      · rw [if_pos hqp] at hq
        cases hq
        omega
      · rw [if_neg hqp] at hq
        have := h.bound q j hq
        omega
    · dsimp
      have := h.two_le
      omega

/-- Helper: `forget` on a non-empty path preserves the inode-table
invariant. -/
theorem fsInv_forget (fs : FSState) (p : FsPath) (hp : p ≠ [])
    (h : FsInv fs) : FsInv (forget fs p) := by
  cases hm : fs.pathMap p with
  | none => simpa [forget, hm] using h
  | some i =>
    simp only [forget, hm]
    refine ⟨?_, ?_, ?_, ?_, ?_⟩
    · intro q j hq
      dsimp at hq ⊢
      by_cases hqp : q = p
      · rw [if_pos hqp] at hq
        cases hq
      · rw [if_neg hqp] at hq
        have h₁ := h.inv₁ q j hq
        by_cases hji : j = i
        · subst hji
          have h₂ := h.inv₁ p j hm
          rw [h₁] at h₂
          cases h₂
          exact absurd rfl hqp
        · rw [if_neg hji]
          exact h₁
    · intro q j hq
      dsimp at hq ⊢
      by_cases hji : j = i
      · rw [if_pos hji] at hq
        cases hq
      · rw [if_neg hji] at hq
        have h₂ := h.inv₂ q j hq
        by_cases hqp : q = p
        · subst hqp
          rw [h₂] at hm
          cases hm
          exact absurd rfl hji
        · rw [if_neg hqp]
          exact h₂
    · dsimp
      have hne : ¬(([] : FsPath) = p) := fun he => hp he.symm
      rw [if_neg hne]
      exact h.root
    · intro q j hq
      dsimp at hq
      by_cases hqp : q = p
      · rw [if_pos hqp] at hq
        cases hq
      · rw [if_neg hqp] at hq
        exact h.bound q j hq
    · exact h.two_le

/-- Helper: the mount-time state satisfies the invariant. -/
theorem fsInv_initState (st : Store) : FsInv (initState st) := by
  refine ⟨?_, ?_, ?_, ?_, ?_⟩
  · intro p i h
    dsimp [initState, ROOT_INO] at h ⊢
    by_cases hp : p = []
    · rw [if_pos hp] at h
      cases h
      simp [hp]
    · rw [if_neg hp] at h
      cases h
  · intro p i h
    dsimp [initState, ROOT_INO] at h ⊢
    by_cases hi : i = 1
    · rw [if_pos hi] at h
      cases h
      simp [hi]
    · rw [if_neg hi] at h
      cases h
  · simp [initState, ROOT_INO]
  · intro p i h
    dsimp [initState, ROOT_INO] at h
    by_cases hp : p = []
    · rw [if_pos hp] at h
      cases h
      simp [initState]
    · rw [if_neg hp] at h
      cases h
  · exact Nat.le_refl 2

/-- Helper: the counter never decreases under a single inode-service
operation. -/
theorem applyOp_nextIno_mono (fs : FSState) (op : InoOp) :
    fs.nextIno ≤ (applyOp fs op).nextIno := by
  cases op with
  | resolve p =>
    cases h : fs.pathMap p with
    | some i => simp [applyOp, getOrCreateIno_found fs p i h]
    | none =>
      simp only [applyOp, getOrCreateIno, h]
      omega
  | forget p =>
    cases h : fs.pathMap p <;> simp [applyOp, forget, h]

/-- Helper: any sequence of inode-service operations whose removals all
target non-empty paths preserves the invariant. -/
theorem fsInv_applyOps (fs : FSState) (ops : List InoOp) (h : FsInv fs)
    (hf : ∀ p, InoOp.forget p ∈ ops → p ≠ []) :
    FsInv (applyOps fs ops) := by
  induction ops generalizing fs with
  | nil => exact h
  | cons op rest ih =>
    rw [applyOps, List.foldl_cons]
    cases op with
    | resolve p =>
      exact ih _ (fsInv_getOrCreateIno fs p h)
        (fun q hq => hf q (List.mem_cons_of_mem _ hq))
    | forget p =>
      exact ih _ (fsInv_forget fs p (hf p (List.mem_cons_self _ _)) h)
        (fun q hq => hf q (List.mem_cons_of_mem _ hq))

/-- C5: After any sequence of `resolve_or_assign` (`get_or_create_ino`) and
`forget` (the map removals in `unlink` / `rmdir`, whose paths are always
non-empty joins of a parent path and a name) operations starting from the
mount-time state: the path-to-inode and inode-to-path maps are mutual
inverses, the root mapping (empty path, inode 1) is present, every
assigned inode is strictly below the next-inode counter (so no inode is
ever reused), the counter never decreases, and `resolve_or_assign` on the
same path returns the same inode (a fresh assignment hands out exactly the
counter value, which exceeds every inode ever assigned before). -/
theorem c5_inode_service_invariants (st : Store) (ops : List InoOp)
    (hf : ∀ p, InoOp.forget p ∈ ops → p ≠ []) :
    FsInv (applyOps (initState st) ops) ∧
    (∀ fs op, fs.nextIno ≤ (applyOp fs op).nextIno) ∧
    (∀ p, (getOrCreateIno ((getOrCreateIno (applyOps (initState st) ops) p).2) p).1 =
      (getOrCreateIno (applyOps (initState st) ops) p).1) ∧
    (∀ p, (applyOps (initState st) ops).pathMap p = none →
      (getOrCreateIno (applyOps (initState st) ops) p).1 =
        (applyOps (initState st) ops).nextIno) := by
  refine ⟨fsInv_applyOps _ _ (fsInv_initState st) hf, applyOp_nextIno_mono, ?_, ?_⟩
  · intro p
    rw [getOrCreateIno_idem]
  · intro p h
    exact getOrCreateIno_fresh _ _ h

end AegisFS

namespace AegisFS

/-- Witness for C5 at the concrete operation sequence `c5ops`. -/
theorem c5_inode_service_invariants_witness :
    (∀ p, InoOp.forget p ∈ c5ops → p ≠ []) ∧
    (FsInv (applyOps (initState []) c5ops) ∧
     (∀ fs op, fs.nextIno ≤ (applyOp fs op).nextIno) ∧
     (∀ p, (getOrCreateIno ((getOrCreateIno (applyOps (initState []) c5ops) p).2) p).1 =
       (getOrCreateIno (applyOps (initState []) c5ops) p).1) ∧
     (∀ p, (applyOps (initState []) c5ops).pathMap p = none →
       (getOrCreateIno (applyOps (initState []) c5ops) p).1 =
         (applyOps (initState []) c5ops).nextIno)) := by
  have hf : ∀ p, InoOp.forget p ∈ c5ops → p ≠ [] := by
    intro p hp
    simp only [c5ops, List.mem_cons, List.not_mem_nil, or_false,
      InoOp.forget.injEq, reduceCtorEq, false_or] at hp
    subst hp
    decide
  exact ⟨hf, c5_inode_service_invariants [] c5ops hf⟩

end AegisFS

/-- Helper: getting a key just put returns the stored body. -/
theorem S3Storage.get_put_self (st : Store) (k : FsPath) (v : Bytes) :
    S3Storage.get (S3Storage.put st k v) k = some v := by
  unfold S3Storage.get S3Storage.put
  rw [List.find?_cons_of_pos]
  · rfl
  · simp

namespace AegisFS

/-- Helper: reading back a file just written through the crypto envelope
yields the written plaintext. -/
theorem readFile_writeFile (a : Aead) (ha : AeadCorrect a) (nonce : Bytes)
    (hn : nonce.length = 12) (st : Store) (p : FsPath) (d : Bytes) :
    readFile a (writeFile a nonce st p d) p = .ok d := by
  unfold readFile writeFile
  rw [S3Storage.get_put_self]
  simp only []
  rw [decrypt_encrypt a ha nonce d hn]

/-- C3: For every non-root inode with a mapped path, every offset and every
data buffer, the `write` callback stores (encrypted under the fresh nonce)
a plaintext equal to the previous plaintext — empty if the object was
missing — zero-extended to `offset + data.length` when that exceeds its
length, with the byte range `[offset, offset + data.length)` replaced by
the data (`patchBytes`), and acknowledges exactly `data.length` bytes;
a write to the root inode replies `EISDIR`. -/
theorem c3_write_read_modify_write (a : Aead) (ha : AeadCorrect a)
    (nonce : Bytes) (hn : nonce.length = 12) (fs : FSState) (ino : Nat)
    (p : FsPath) (offset : Nat) (data old : Bytes)
    (hio : ino ≠ 1) (hp : getPath fs ino = some p)
    (hold : readFile a fs.store p = .ok old ∨
      (readFile a fs.store p = .missing ∧ old = [])) :
    (∀ offset' data', write a nonce fs 1 offset' data' = (.error .EISDIR, fs)) ∧
    write a nonce fs ino offset data =
      (.written data.length,
        { fs with store := writeFile a nonce fs.store p (patchBytes old offset data) }) ∧
    readFile a (writeFile a nonce fs.store p (patchBytes old offset data)) p =
      .ok (patchBytes old offset data) := by
  refine ⟨?_, ?_, readFile_writeFile a ha nonce hn _ _ _⟩
  · intro offset' data'
    simp [write, ROOT_INO]
  · unfold write
    rw [if_neg (by simpa [ROOT_INO] using hio)]
    rcases hold with h | ⟨h, h'⟩
    · simp only [hp, h]
    · simp only [hp, h, h']

/-- C4: For every non-root inode whose path maps to an existing object
with plaintext of length `L`, the `read` callback with an offset and size
replies the empty byte string when `offset ≥ L`, and otherwise replies
`plaintext[offset : min(offset + size, L)]`; a read on the root inode
replies `EISDIR`. -/
theorem c4_read_semantics (a : Aead) (fs : FSState) (ino : Nat) (p : FsPath)
    (ct pt : Bytes) (offset size : Nat) (hio : ino ≠ 1)
    (hp : getPath fs ino = some p)
    (hct : S3Storage.get fs.store p = some ct)
    (hpt : Encryptor.decrypt a ct = some pt) :
    (∀ o s, read a fs 1 o s = .error .EISDIR) ∧
    read a fs ino offset size =
      .data (if pt.length ≤ offset then []
        else (pt.take (min (offset + size) pt.length)).drop offset) := by
  constructor
  · intro o s
    simp [read, ROOT_INO]
  · unfold read
    rw [if_neg (by simpa [ROOT_INO] using hio)]
    unfold readFile
    simp only [hp, hct, hpt]
    split <;> rfl

end AegisFS

namespace AegisFS

/-- Witness for C3 at a concrete state: patch `[5, 6]` at offset 1 with
`[9]`. -/
theorem c3_write_read_modify_write_witness :
    (2 : Nat) ≠ 1 ∧ getPath wfs 2 = some ['f'] ∧
    readFile demoAead wfs.store ['f'] = .ok [5, 6] ∧
    ((∀ offset' data',
        write demoAead nonce12 wfs 1 offset' data' = (.error .EISDIR, wfs)) ∧
     write demoAead nonce12 wfs 2 1 [9] =
       (.written 1,
         { wfs with store :=
             writeFile demoAead nonce12 wfs.store ['f'] (patchBytes [5, 6] 1 [9]) }) ∧
     readFile demoAead
         (writeFile demoAead nonce12 wfs.store ['f'] (patchBytes [5, 6] 1 [9])) ['f'] =
       .ok (patchBytes [5, 6] 1 [9])) :=
  ⟨by decide, by decide, by decide,
    c3_write_read_modify_write demoAead demoAead_correct nonce12 (by decide)
      wfs 2 ['f'] 1 [9] [5, 6] (by decide) (by decide) (Or.inl (by decide))⟩

/-- Witness for C4 at a concrete state: read 1 byte at offset 1 of the
2-byte plaintext `[5, 6]`. -/
theorem c4_read_semantics_witness :
    (2 : Nat) ≠ 1 ∧ getPath wfs 2 = some ['f'] ∧
    S3Storage.get wfs.store ['f'] = some (Encryptor.encrypt demoAead nonce12 [5, 6]) ∧
    Encryptor.decrypt demoAead (Encryptor.encrypt demoAead nonce12 [5, 6]) = some [5, 6] ∧
    ((∀ o s, read demoAead wfs 1 o s = .error .EISDIR) ∧
     read demoAead wfs 2 1 1 =
       .data (if ([5, 6] : Bytes).length ≤ 1 then []
         else (([5, 6] : Bytes).take (min (1 + 1) ([5, 6] : Bytes).length)).drop 1)) :=
  ⟨by decide, by decide, by decide, by decide,
    c4_read_semantics demoAead wfs 2 ['f'] (Encryptor.encrypt demoAead nonce12 [5, 6])
      [5, 6] 1 1 (by decide) (by decide) (by decide) (by decide)⟩

end AegisFS

namespace AegisFS

/-- Helper: joined child paths are never the empty (root) path when the
name is non-empty. -/
theorem joinPath_ne_nil (pp nm : FsPath) (h : nm ≠ []) : joinPath pp nm ≠ [] := by
  unfold joinPath
  split
  · exact h
  · simp

/-- Helper: the inode field of synthesised file attributes is the argument
inode. -/
theorem getFileAttrForPath_ino (a : Aead) (st : Store) (p : FsPath) (i : Nat) :
    (getFileAttrForPath a st p i).ino = i := rfl

/-- Helper: under the invariant, resolving a non-root path yields a
non-root inode that resolves back to the path. -/
theorem getPath_after_getOrCreateIno (fs : FSState) (p : FsPath)
    (h : FsInv fs) (hp : p ≠ []) :
    (getOrCreateIno fs p).1 ≠ 1 ∧
    getPath (getOrCreateIno fs p).2 (getOrCreateIno fs p).1 = some p := by
  cases hm : fs.pathMap p with
  | some i =>
    rw [getOrCreateIno_found fs p i hm]
    have hi1 : i ≠ 1 := by
      intro he
      subst he
      have ha := h.inv₁ p 1 hm
      have hb := h.inv₁ [] 1 h.root
      rw [ha] at hb
      cases hb
      exact hp rfl
    refine ⟨hi1, ?_⟩
    unfold getPath ROOT_INO
    rw [if_neg hi1]
    exact h.inv₁ p i hm
  | none =>
    have h2 := h.two_le
    simp only [getOrCreateIno, hm]
    constructor
    · omega
    · unfold getPath ROOT_INO
      rw [if_neg (by omega)]
      simp

/-- Helper: patching the empty plaintext at offset 0 yields the data. -/
theorem patchBytes_zero_nil (d : Bytes) : patchBytes [] 0 d = d := by
  cases d with
  | nil => simp [patchBytes]
  | cons x xs =>
    simp [patchBytes, List.drop_eq_nil_of_le]

/-- Helper: `create` with a resolvable parent and a valid name reduces to
the put of an encrypted empty object at the joined child path followed by
an inode assignment. -/
theorem create_reduces (a : Aead) (n1 : Bytes) (fs : FSState) (pi : Nat)
    (pp nm : FsPath) (hpp : getPath fs pi = some pp) :
    create a n1 fs pi (some nm) =
      ((.entry (getFileAttrForPath a
          (getOrCreateIno { fs with store := writeFile a n1 fs.store (joinPath pp nm) [] }
            (joinPath pp nm)).2.store
          (joinPath pp nm)
          (getOrCreateIno { fs with store := writeFile a n1 fs.store (joinPath pp nm) [] }
            (joinPath pp nm)).1),
        (getOrCreateIno { fs with store := writeFile a n1 fs.store (joinPath pp nm) [] }
          (joinPath pp nm)).2)) := by
  by_cases hpi : pi = 1
  · subst hpi
    have hpp0 : pp = [] := by
      have h' := hpp
      simp [getPath, ROOT_INO] at h'
      exact h'
    subst hpp0
    simp [create, ROOT_INO, joinPath]
  · unfold create
    rw [if_pos (by simpa [ROOT_INO] using hpi)]
    simp only [hpp]

/-- C2: For any path `p` (a parent path joined with a non-empty name) and
any payload `d`, starting from an invariant-satisfying state in which `p`
is absent from the store, executing `create`, then `write` at offset 0
with `d`, then `read` at offset 0 of `d.length` bytes through the gateway
returns exactly `d`. -/
theorem c2_create_write_read (a : Aead) (ha : AeadCorrect a) (n1 n2 : Bytes)
    (h1 : n1.length = 12) (h2 : n2.length = 12) (fs : FSState) (hInv : FsInv fs)
    (pi : Nat) (pp : FsPath) (hpp : getPath fs pi = some pp)
    (nm : FsPath) (hnm : nm ≠ []) (d : Bytes)
    (habsent : S3Storage.get fs.store (joinPath pp nm) = none) :
    ∃ attr fs1 fs2,
      create a n1 fs pi (some nm) = (.entry attr, fs1) ∧
      write a n2 fs1 attr.ino 0 d = (.written d.length, fs2) ∧
      read a fs2 attr.ino 0 d.length = .data d := by
  have hpne : joinPath pp nm ≠ [] := joinPath_ne_nil pp nm hnm
  have hcreate := create_reduces a n1 fs pi pp nm hpp
  have hinvA : FsInv { fs with store := writeFile a n1 fs.store (joinPath pp nm) [] } :=
    ⟨hInv.inv₁, hInv.inv₂, hInv.root, hInv.bound, hInv.two_le⟩
  obtain ⟨hi1, hgp⟩ := getPath_after_getOrCreateIno
    { fs with store := writeFile a n1 fs.store (joinPath pp nm) [] } (joinPath pp nm) hinvA hpne
  have hstore1 : (getOrCreateIno { fs with store := writeFile a n1 fs.store (joinPath pp nm) [] }
      (joinPath pp nm)).2.store = writeFile a n1 fs.store (joinPath pp nm) [] :=
    getOrCreateIno_store _ _
  obtain ⟨i, fs1, hpr⟩ : ∃ i fs1,
      getOrCreateIno { fs with store := writeFile a n1 fs.store (joinPath pp nm) [] }
        (joinPath pp nm) = (i, fs1) := ⟨_, _, rfl⟩
  rw [hpr] at hcreate hi1 hgp hstore1
  dsimp only at hcreate hi1 hgp hstore1
  have hread1 : readFile a fs1.store (joinPath pp nm) = .ok [] := by
    rw [hstore1]
    exact readFile_writeFile a ha n1 h1 fs.store (joinPath pp nm) []
  refine ⟨getFileAttrForPath a fs1.store (joinPath pp nm) i, fs1,
    { fs1 with store := writeFile a n2 fs1.store (joinPath pp nm) d }, hcreate, ?_, ?_⟩
  · simp only [getFileAttrForPath_ino]
    unfold write
    rw [if_neg (by simpa [ROOT_INO] using hi1)]
    simp only [hgp, hread1, patchBytes_zero_nil]
  · simp only [getFileAttrForPath_ino]
    unfold read
    rw [if_neg (by simpa [ROOT_INO] using hi1)]
    have hgp2 : getPath { fs1 with store := writeFile a n2 fs1.store (joinPath pp nm) d } i =
        some (joinPath pp nm) := by
      unfold getPath at hgp ⊢
      exact hgp
    have hread2 : readFile a { fs1 with
        store := writeFile a n2 fs1.store (joinPath pp nm) d }.store (joinPath pp nm) = .ok d :=
      readFile_writeFile a ha n2 h2 _ _ _
    simp only [hgp2, hread2]
    cases d with
    | nil => simp
    | cons x xs => simp

end AegisFS

namespace AegisFS

/-- Witness for C2 at the mount-time state: create `f` under the root,
write `[1, 2]` at offset 0, read it back. -/
theorem c2_create_write_read_witness :
    FsInv (initState []) ∧ getPath (initState []) 1 = some [] ∧
    (['f'] : FsPath) ≠ [] ∧
    S3Storage.get (initState []).store (joinPath [] ['f']) = none ∧
    (∃ attr fs1 fs2,
      create demoAead nonce12 (initState []) 1 (some ['f']) = (.entry attr, fs1) ∧
      write demoAead nonce12 fs1 attr.ino 0 [1, 2] = (.written ([1, 2] : Bytes).length, fs2) ∧
      read demoAead fs2 attr.ino 0 ([1, 2] : Bytes).length = .data [1, 2]) :=
  ⟨fsInv_initState [], by decide, by decide, by decide,
    c2_create_write_read demoAead demoAead_correct nonce12 nonce12 (by decide) (by decide)
      (initState []) (fsInv_initState []) 1 [] (by decide) ['f'] (by decide) [1, 2] (by decide)⟩

end AegisFS

namespace AegisFS

/-- Counterexample to C6: in the concrete state `c6fs` the stored object at
`f` (inode 2) fails AEAD authentication, yet `getattr` does not reply
`EIO` — its catch-all match arm swallows the failure and replies success
with regular-file attributes of size 0 (src/filesystem.rs:222-231). -/
theorem c6_counterexample :
    S3Storage.get c6fs.store ['f'] = some c6ct ∧
    Encryptor.decrypt demoAead c6ct = none ∧
    getattr demoAead c6fs 2 = .attr ⟨2, 0, 0, .RegularFile, 420, 1⟩ := by
  decide

/-- C6 (amended): for every non-root inode mapped to a path whose stored
object fails decryption, the `read` callback replies `EIO` (never `ENOENT`
and never a successful reply); the `getattr` callback however does not
surface the failure: when the path has no listing children it replies
success with regular-file attributes of size 0. -/
theorem c6_amended_decrypt_failure (a : Aead) (fs : FSState) (ino : Nat)
    (p : FsPath) (ct : Bytes) (offset size : Nat) (hio : ino ≠ 1)
    (hp : getPath fs ino = some p)
    (hct : S3Storage.get fs.store p = some ct)
    (hdec : Encryptor.decrypt a ct = none) :
    read a fs ino offset size = .error Errno.EIO ∧
    ((S3Storage.list fs.store (p ++ ['/'])).isEmpty = true →
      getattr a fs ino = .attr (getFileAttrForPath a fs.store p ino) ∧
      (getFileAttrForPath a fs.store p ino).size = 0 ∧
      (getFileAttrForPath a fs.store p ino).kind = .RegularFile) := by
  have hrf : readFile a fs.store p = .err := by
    unfold readFile
    simp only [hct, hdec]
  constructor
  · unfold read
    rw [if_neg (by simpa [ROOT_INO] using hio)]
    simp only [hp, hrf]
  · intro hempty
    refine ⟨?_, ?_, rfl⟩
    · unfold getattr
      rw [if_neg (by simpa [ROOT_INO] using hio)]
      simp only [hp, hempty, hrf, if_true]
    · unfold getFileAttrForPath
      simp only [hrf]

/-- Witness for the amended C6 at the concrete tampered state `c6fs`. -/
theorem c6_amended_decrypt_failure_witness :
    (2 : Nat) ≠ 1 ∧ getPath c6fs 2 = some ['f'] ∧
    S3Storage.get c6fs.store ['f'] = some c6ct ∧
    Encryptor.decrypt demoAead c6ct = none ∧
    (read demoAead c6fs 2 0 4 = .error Errno.EIO ∧
     ((S3Storage.list c6fs.store (['f'] ++ ['/'])).isEmpty = true →
       getattr demoAead c6fs 2 = .attr (getFileAttrForPath demoAead c6fs.store ['f'] 2) ∧
       (getFileAttrForPath demoAead c6fs.store ['f'] 2).size = 0 ∧
       (getFileAttrForPath demoAead c6fs.store ['f'] 2).kind = .RegularFile)) :=
  ⟨by decide, by decide, by decide, by decide,
    c6_amended_decrypt_failure demoAead c6fs 2 ['f'] c6ct 0 4
      (by decide) (by decide) (by decide) (by decide)⟩

end AegisFS

namespace AegisFS

/-- Counterexample to C7: in the concrete state `c7fs` both an object at
exactly `a` and an object `a/b` below it exist, yet `getattr` on `a`'s
inode replies directory attributes, not regular-file attributes — the
prefix-listing check precedes the file branch (src/filesystem.rs:216-221). -/
theorem c7_counterexample :
    S3Storage.get c7fs.store ['a'] = some [0] ∧
    S3Storage.list c7fs.store (['a'] ++ ['/']) = [['a', '/', 'b']] ∧
    getPath c7fs 2 = some ['a'] ∧
    getattr demoAead c7fs 2 = .attr (getDirAttrForPath 2) ∧
    (getDirAttrForPath 2).kind = .Directory ∧
    FileType.Directory ≠ FileType.RegularFile := by
  decide

/-- C7 (amended): for a path such that both an object at exactly that key
and at least one object below it exist, `lookup` replies regular-file
attributes (the existence probe precedes the directory probe), but
`getattr` on the path's inode replies directory attributes (the
prefix-listing check precedes the file branch). -/
theorem c7_amended_ambiguous_path (a : Aead) (fs : FSState) (parent : Nat)
    (pp nm : FsPath) (hpp : getPath fs parent = some pp)
    (hdot : ¬(parent = 1 ∧ (nm = ['.'] ∨ nm = ['.', '.'])))
    (hex : S3Storage.existsKey fs.store (joinPath pp nm) = true)
    (hchild : (S3Storage.list fs.store (joinPath pp nm ++ ['/'])).isEmpty = false) :
    (∃ attr fs', lookup a fs parent (some nm) = (.entry attr, fs') ∧
       attr.kind = .RegularFile) ∧
    (∀ ino, ino ≠ 1 → getPath fs ino = some (joinPath pp nm) →
       getattr a fs ino = .attr (getDirAttrForPath ino) ∧
       (getDirAttrForPath ino).kind = .Directory) := by
  constructor
  · refine ⟨getFileAttrForPath a (getOrCreateIno fs (joinPath pp nm)).2.store (joinPath pp nm)
      (getOrCreateIno fs (joinPath pp nm)).1, (getOrCreateIno fs (joinPath pp nm)).2, ?_, rfl⟩
    unfold lookup
    simp [hpp, hex, hdot]
  · intro ino hio hpi
    refine ⟨?_, rfl⟩
    unfold getattr
    rw [if_neg (by simpa [ROOT_INO] using hio)]
    simp [hpi, hchild]

/-- Witness for the amended C7 at the concrete ambiguous state `c7fs`. -/
theorem c7_amended_ambiguous_path_witness :
    getPath c7fs 1 = some [] ∧
    ¬((1 : Nat) = 1 ∧ ((['a'] : FsPath) = ['.'] ∨ (['a'] : FsPath) = ['.', '.'])) ∧
    S3Storage.existsKey c7fs.store (joinPath [] ['a']) = true ∧
    (S3Storage.list c7fs.store (joinPath [] ['a'] ++ ['/'])).isEmpty = false ∧
    ((∃ attr fs', lookup demoAead c7fs 1 (some ['a']) = (.entry attr, fs') ∧
       attr.kind = .RegularFile) ∧
     (∀ ino, ino ≠ 1 → getPath c7fs ino = some (joinPath [] ['a']) →
       getattr demoAead c7fs ino = .attr (getDirAttrForPath ino) ∧
       (getDirAttrForPath ino).kind = .Directory)) :=
  ⟨by decide, by decide, by decide, by decide,
    c7_amended_ambiguous_path demoAead c7fs 1 [] ['a']
      (by decide) (by decide) (by decide) (by decide)⟩

end AegisFS

namespace AegisFS

/-- Counterexample to C9: `lookup` replies `ENOENT`, not `EINVAL`, for a
name that is not valid UTF-8 (src/filesystem.rs:132-138). -/
theorem c9_counterexample :
    (lookup demoAead (initState []) 1 none).1 = .error .ENOENT ∧
    Errno.ENOENT ≠ Errno.EINVAL := by
  decide

/-- C9 (amended): a name that is not valid UTF-8 is rejected with `EINVAL`
by `create`, `unlink`, `mkdir` and `rmdir` (once the parent inode
resolves), but `lookup` rejects it with `ENOENT`. -/
theorem c9_amended_bad_name (a : Aead) (nonce : Bytes) (fs : FSState)
    (parent : Nat) (pp : FsPath) (hpp : getPath fs parent = some pp) :
    create a nonce fs parent none = (.error .EINVAL, fs) ∧
    unlink fs parent none = (.error .EINVAL, fs) ∧
    mkdir a nonce fs parent none = (.error .EINVAL, fs) ∧
    rmdir fs parent none = (.error .EINVAL, fs) ∧
    lookup a fs parent none = (.error .ENOENT, fs) := by
  refine ⟨?_, ?_, ?_, ?_, rfl⟩
  · by_cases hpi : parent = 1
    · subst hpi
      simp [create, ROOT_INO]
    · simp [create, ROOT_INO, hpi, hpp]
  · unfold unlink
    simp [hpp]
  · unfold mkdir
    simp [hpp]
  · unfold rmdir
    simp [hpp]

/-- Witness for the amended C9 at the mount-time state with the root as
parent. -/
theorem c9_amended_bad_name_witness :
    getPath (initState []) 1 = some [] ∧
    (create demoAead nonce12 (initState []) 1 none = (.error .EINVAL, initState []) ∧
     unlink (initState []) 1 none = (.error .EINVAL, initState []) ∧
     mkdir demoAead nonce12 (initState []) 1 none = (.error .EINVAL, initState []) ∧
     rmdir (initState []) 1 none = (.error .EINVAL, initState []) ∧
     lookup demoAead (initState []) 1 none = (.error .ENOENT, initState [])) :=
  ⟨by decide, c9_amended_bad_name demoAead nonce12 (initState []) 1 [] (by decide)⟩

end AegisFS

namespace AegisFS

/-- Helper: the non-root readdir child loop never changes an existing path
mapping. -/
theorem readdirChildren_pathMap_mono (es : List FsPath) :
    ∀ (fs : FSState) (path : FsPath) (cur off : Nat) (q : FsPath) (j : Nat),
      fs.pathMap q = some j →
      (readdirChildren fs path es cur off).2.pathMap q = some j := by
  induction es with
  | nil =>
    intro fs path cur off q j h
    simpa [readdirChildren] using h
  | cons x rest ih =>
    intro fs path cur off q j h
    by_cases hc : cur > off
    · simp only [readdirChildren, if_pos hc]
      exact ih _ path (cur + 1) off q j (getOrCreateIno_pathMap_mono fs _ q j h)
    · simp only [readdirChildren, if_neg hc]
      exact ih fs path (cur + 1) off q j h

/-- Helper: every entry emitted by the non-root readdir child loop has its
child's full path mapped to the emitted inode in the resulting state. -/
theorem readdirChildren_pathMap (es : List FsPath) :
    ∀ (fs : FSState) (path : FsPath) (cur off : Nat) (e : DirEntry),
      e ∈ (readdirChildren fs path es cur off).1 →
      (readdirChildren fs path es cur off).2.pathMap (joinPath path e.name) = some e.ino := by
  induction es with
  | nil =>
    intro fs path cur off e he
    simp [readdirChildren] at he
  | cons x rest ih =>
    intro fs path cur off e he
    by_cases hc : cur > off
    · simp only [readdirChildren, if_pos hc] at he ⊢
      rcases List.mem_cons.mp he with h | h
      · subst h
        exact readdirChildren_pathMap_mono rest _ path (cur + 1) off _ _
          (getOrCreateIno_pathMap_self fs _)
      · exact ih _ path (cur + 1) off e h
    · simp only [readdirChildren, if_neg hc] at he ⊢
      exact ih fs path (cur + 1) off e he

/-- Helper: every entry emitted by the non-root readdir child loop is typed
`RegularFile` and names one of the listed children. -/
theorem readdirChildren_kind_mem (es : List FsPath) :
    ∀ (fs : FSState) (path : FsPath) (cur off : Nat) (e : DirEntry),
      e ∈ (readdirChildren fs path es cur off).1 →
      e.kind = .RegularFile ∧ e.name ∈ es := by
  induction es with
  | nil =>
    intro fs path cur off e he
    simp [readdirChildren] at he
  | cons x rest ih =>
    intro fs path cur off e he
    by_cases hc : cur > off
    · simp only [readdirChildren, if_pos hc] at he
      rcases List.mem_cons.mp he with h | h
      · subst h
        exact ⟨rfl, List.mem_cons_self _ _⟩
      · obtain ⟨h1, h2⟩ := ih _ path (cur + 1) off e h
        exact ⟨h1, List.mem_cons_of_mem _ h2⟩
    · simp only [readdirChildren, if_neg hc] at he
      obtain ⟨h1, h2⟩ := ih fs path (cur + 1) off e he
      exact ⟨h1, List.mem_cons_of_mem _ h2⟩

/-- Helper: every entry emitted by the root readdir child loop is typed
`RegularFile`, carries the running offset value as its inode, and names
one of the listed children. -/
theorem readdirRootChildren_spec (es : List FsPath) :
    ∀ (cur off : Nat) (e : DirEntry), e ∈ readdirRootChildren es cur off →
      e.kind = .RegularFile ∧ e.ino = e.off ∧ e.name ∈ es := by
  induction es with
  | nil =>
    intro cur off e he
    simp [readdirRootChildren] at he
  | cons x rest ih =>
    intro cur off e he
    by_cases hc : cur > off
    · simp only [readdirRootChildren, if_pos hc] at he
      rcases List.mem_cons.mp he with h | h
      · subst h
        exact ⟨rfl, rfl, List.mem_cons_self _ _⟩
      · obtain ⟨h1, h2, h3⟩ := ih (cur + 1) off e h
        exact ⟨h1, h2, List.mem_cons_of_mem _ h3⟩
    · simp only [readdirRootChildren, if_neg hc] at he
      obtain ⟨h1, h2, h3⟩ := ih (cur + 1) off e he
      exact ⟨h1, h2, List.mem_cons_of_mem _ h3⟩

/-- Helper: an entry of the `.` / `..` block has offset 0 or 1. -/
theorem dots_off_le_one (i1 i2 off : Nat) (e : DirEntry)
    (he : e ∈ (if off = 0 then [{ ino := i1, off := 0, kind := FileType.Directory, name := ['.'] }] else [])
      ++ (if off ≤ 1 then [{ ino := i2, off := 1, kind := FileType.Directory, name := ['.', '.'] }] else [])) :
    e.off ≤ 1 := by
  rcases List.mem_append.mp he with h | h
  · split at h
    · rcases List.mem_singleton.mp h with rfl
      exact Nat.zero_le 1
    · cases h
  · split at h
    · rcases List.mem_singleton.mp h with rfl
      exact Nat.le_refl 1
    · cases h

end AegisFS

namespace AegisFS

/-- Counterexample to C8: in the concrete state `c8fs` the path `a` is
already mapped to inode 3, yet the root `readdir` emits `a` with inode 2
(the running offset value, src/filesystem.rs:327), not the inode
`resolve_or_assign` yields, and leaves the inode table untouched. -/
theorem c8_counterexample :
    (readdir c8fs 1 0).1 =
      .ok [⟨1, 0, .Directory, ['.']⟩, ⟨1, 1, .Directory, ['.', '.']⟩,
           ⟨2, 2, .RegularFile, ['a']⟩] ∧
    (readdir c8fs 1 0).2.pathMap ['a'] = some 3 ∧
    (getOrCreateIno c8fs ['a']).1 = 3 ∧
    (2 : Nat) ≠ 3 := by
  decide

/-- C8 (amended): every directory entry beyond `.` and `..` emitted by a
NON-root `readdir` carries the inode obtained by `resolve_or_assign` for
the child's full path — after the reply that path is installed in the
inode table and resolving it again yields the same inode. The ROOT
`readdir`, however, emits the entry's offset value as its inode number and
neither consults nor updates the inode table. -/
theorem c8_amended_readdir_inodes (fs : FSState) (ino off : Nat) (path : FsPath)
    (hio : ino ≠ 1) (hp : getPath fs ino = some path) :
    (∃ es fs', readdir fs ino off = (.ok es, fs') ∧
       ∀ e ∈ es, 2 ≤ e.off →
         fs'.pathMap (joinPath path e.name) = some e.ino ∧
         (getOrCreateIno fs' (joinPath path e.name)).1 = e.ino) ∧
    (∀ off', ∃ es, readdir fs 1 off' = (.ok es, fs) ∧
       ∀ e ∈ es, 2 ≤ e.off → e.ino = e.off) := by
  constructor
  · unfold readdir
    rw [if_pos (show ino ≠ ROOT_INO by simpa [ROOT_INO] using hio)]
    simp only [hp]
    refine ⟨_, _, rfl, ?_⟩
    intro e he hoff
    rcases List.mem_append.mp he with hd | hc
    · exact absurd hoff (by have := dots_off_le_one _ _ _ _ hd; omega)
    · have h1 := readdirChildren_pathMap (listDirectory fs.store path) fs path 2 off e hc
      exact ⟨h1, by rw [getOrCreateIno_found _ _ _ h1]⟩
  · intro off'
    unfold readdir
    rw [if_neg (show ¬((1 : Nat) ≠ ROOT_INO) by simp [ROOT_INO])]
    refine ⟨_, rfl, ?_⟩
    intro e he hoff
    rcases List.mem_append.mp he with hd | hc
    · exact absurd hoff (by have := dots_off_le_one _ _ _ _ hd; omega)
    · exact (readdirRootChildren_spec _ _ _ _ hc).2.1

/-- Witness for the amended C8 at the concrete state `c7fs` (inode 2 is
the directory-like path `a`). -/
theorem c8_amended_readdir_inodes_witness :
    (2 : Nat) ≠ 1 ∧ getPath c7fs 2 = some ['a'] ∧
    ((∃ es fs', readdir c7fs 2 0 = (.ok es, fs') ∧
       ∀ e ∈ es, 2 ≤ e.off →
         fs'.pathMap (joinPath ['a'] e.name) = some e.ino ∧
         (getOrCreateIno fs' (joinPath ['a'] e.name)).1 = e.ino) ∧
     (∀ off', ∃ es, readdir c7fs 1 off' = (.ok es, c7fs) ∧
       ∀ e ∈ es, 2 ≤ e.off → e.ino = e.off)) :=
  ⟨by decide, by decide,
    c8_amended_readdir_inodes c7fs 2 0 ['a'] (by decide) (by decide)⟩

end AegisFS

namespace AegisFS

/-- Helper: a key among the store's keys has a retrievable body. -/
theorem get_isSome_of_mem_keys (st : Store) (k : FsPath)
    (hk : k ∈ st.map Prod.fst) :
    ∃ ct, S3Storage.get st k = some ct := by
  induction st with
  | nil => simp at hk
  | cons x rest ih =>
    have hk0 : k = x.1 ∨ k ∈ rest.map Prod.fst := by
      rw [List.map_cons] at hk
      exact List.mem_cons.mp hk
    by_cases hx : (x.1 == k) = true
    · refine ⟨x.2, ?_⟩
      unfold S3Storage.get
      simp [List.find?_cons, hx]
    · have hx' : (x.1 == k) = false := by simpa using hx
      have hk' : k ∈ rest.map Prod.fst := by
        rcases hk0 with h | h
        · subst h
          simp at hx'
        · exact h
      obtain ⟨ct, hct⟩ := ih hk'
      refine ⟨ct, ?_⟩
      unfold S3Storage.get at hct ⊢
      simp only [List.find?_cons, hx']
      exact hct

/-- Helper: a verified prefix splits a key into the prefix and the
remainder. -/
theorem drop_of_isPrefixOf (pre e : FsPath) (h : pre.isPrefixOf e = true) :
    pre ++ e.drop pre.length = e := by
  obtain ⟨t, ht⟩ := List.isPrefixOf_iff_prefix.mp h
  rw [← ht, List.drop_left]

/-- Helper: every name produced by `list_directory` comes from an object
key that exists at exactly the joined child path (the depth filter keeps
only keys with no further slash below the listing prefix). -/
theorem mem_listDirectory (st : Store) (path : FsPath) (c : FsPath)
    (hc : c ∈ listDirectory st path) :
    ∃ ct, S3Storage.get st (joinPath path c) = some ct := by
  simp only [listDirectory] at hc
  obtain ⟨e, he, hfe⟩ := List.mem_filterMap.mp hc
  have hkeys : e ∈ st.map Prod.fst := List.mem_of_mem_filter he
  by_cases hdep : e.count '/' + 1 = (if path = [] then 0 else path.count '/' + 1) + 1
  · rw [if_pos hdep] at hfe
    by_cases hpref : (if path = [] then ([] : FsPath) else path ++ ['/']).isPrefixOf e = true
    · rw [if_pos hpref] at hfe
      injection hfe with hce
      subst hce
      have heq : joinPath path
          (e.drop (if path = [] then ([] : FsPath) else path ++ ['/']).length) = e := by
        by_cases hp0 : path = []
        · subst hp0
          simp [joinPath]
        · simp only [if_neg hp0] at hpref ⊢
          have h2 := drop_of_isPrefixOf (path ++ ['/']) e hpref
          unfold joinPath
          rw [if_neg hp0, ← h2]
          simp
      rw [heq]
      exact get_isSome_of_mem_keys st e hkeys
    · rw [if_neg hpref] at hfe
      cases hfe
  · rw [if_neg hdep] at hfe
    cases hfe

/-- Helper: when the object at the joined child path exists, `lookup` on
the child name (outside the root's `.` / `..` short-circuit) replies
regular-file attributes. -/
theorem lookup_exists_file (a : Aead) (fs : FSState) (parent : Nat)
    (pp nm : FsPath) (hpp : getPath fs parent = some pp)
    (hdot : ¬(parent = 1 ∧ (nm = ['.'] ∨ nm = ['.', '.'])))
    (hex : S3Storage.existsKey fs.store (joinPath pp nm) = true) :
    ∃ attr fs', lookup a fs parent (some nm) = (.entry attr, fs') ∧
      attr.kind = .RegularFile := by
  refine ⟨getFileAttrForPath a (getOrCreateIno fs (joinPath pp nm)).2.store (joinPath pp nm)
    (getOrCreateIno fs (joinPath pp nm)).1, (getOrCreateIno fs (joinPath pp nm)).2, ?_, rfl⟩
  unfold lookup
  simp [hpp, hex, hdot]

/-- C10 (amended): every directory entry beyond `.` and `..` emitted by
`readdir` (root or not) is typed as a regular file; moreover every such
child names an object that exists at exactly the joined child key, so
`lookup` on the same name (outside the root's `.` / `..` short-circuit)
also replies regular-file attributes — not directory attributes. -/
theorem c10_amended_readdir_types (a : Aead) (fs : FSState) (ino off : Nat)
    (path : FsPath) (hp : getPath fs ino = some path) :
    ∃ es fs', readdir fs ino off = (.ok es, fs') ∧
      ∀ e ∈ es, 2 ≤ e.off →
        e.kind = .RegularFile ∧
        (∃ ct, S3Storage.get fs.store (joinPath path e.name) = some ct) ∧
        (¬(ino = 1 ∧ (e.name = ['.'] ∨ e.name = ['.', '.'])) →
          ∃ attr fs2, lookup a fs ino (some e.name) = (.entry attr, fs2) ∧
            attr.kind = .RegularFile) := by
  by_cases hio : ino = 1
  · subst hio
    have hpath : path = [] := by
      have h' := hp
      simp [getPath, ROOT_INO] at h'
      exact h'
    subst hpath
    unfold readdir
    rw [if_neg (show ¬((1 : Nat) ≠ ROOT_INO) by simp [ROOT_INO])]
    refine ⟨_, _, rfl, ?_⟩
    intro e he hoff
    rcases List.mem_append.mp he with hd | hc
    · exact absurd hoff (by have := dots_off_le_one _ _ _ _ hd; omega)
    · obtain ⟨hkind, _, hmem⟩ := readdirRootChildren_spec _ _ _ _ hc
      obtain ⟨ct, hct⟩ := mem_listDirectory fs.store [] e.name hmem
      refine ⟨hkind, ⟨ct, hct⟩, ?_⟩
      intro hdot
      exact lookup_exists_file a fs 1 [] e.name (by simp [getPath, ROOT_INO]) hdot
        (by simp [S3Storage.existsKey, hct])
  · unfold readdir
    rw [if_pos (show ino ≠ ROOT_INO by simpa [ROOT_INO] using hio)]
    simp only [hp]
    refine ⟨_, _, rfl, ?_⟩
    intro e he hoff
    rcases List.mem_append.mp he with hd | hc
    · exact absurd hoff (by have := dots_off_le_one _ _ _ _ hd; omega)
    · obtain ⟨hkind, hmem⟩ := readdirChildren_kind_mem _ fs path 2 off e hc
      obtain ⟨ct, hct⟩ := mem_listDirectory fs.store path e.name hmem
      refine ⟨hkind, ⟨ct, hct⟩, ?_⟩
      intro hdot
      exact lookup_exists_file a fs ino path e.name hp hdot
        (by simp [S3Storage.existsKey, hct])

end AegisFS

namespace AegisFS

/-- Counterexample to C10: in the concrete state `c7fs` the root `readdir`
emits the child `a` (which has the object `a/b` below it, i.e. a
synthesized directory in the claim's sense) typed `RegularFile`, but
`lookup` on the same name also replies regular-file attributes — not
directory attributes — because `lookup` probes the object's existence
before the directory synthesis rule. -/
theorem c10_counterexample :
    (readdir c7fs 1 0).1 =
      .ok [⟨1, 0, .Directory, ['.']⟩, ⟨1, 1, .Directory, ['.', '.']⟩,
           ⟨2, 2, .RegularFile, ['a']⟩] ∧
    (S3Storage.list c7fs.store (['a'] ++ ['/'])).isEmpty = false ∧
    (lookup demoAead c7fs 1 (some ['a'])).1 =
      .entry (getFileAttrForPath demoAead c7fs.store ['a'] 2) ∧
    (getFileAttrForPath demoAead c7fs.store ['a'] 2).kind = .RegularFile ∧
    FileType.RegularFile ≠ FileType.Directory := by
  decide

/-- Witness for the amended C10 at the concrete state `c7fs`, reading the
root directory. -/
theorem c10_amended_readdir_types_witness :
    getPath c7fs 1 = some [] ∧
    (∃ es fs', readdir c7fs 1 0 = (.ok es, fs') ∧
      ∀ e ∈ es, 2 ≤ e.off →
        e.kind = .RegularFile ∧
        (∃ ct, S3Storage.get c7fs.store (joinPath [] e.name) = some ct) ∧
        (¬((1 : Nat) = 1 ∧ (e.name = ['.'] ∨ e.name = ['.', '.'])) →
          ∃ attr fs2, lookup demoAead c7fs 1 (some e.name) = (.entry attr, fs2) ∧
            attr.kind = .RegularFile)) :=
  ⟨by decide, c10_amended_readdir_types demoAead c7fs 1 0 [] (by decide)⟩

end AegisFS
